import Mathlib

/-!
Verification of the zod-to-json-schema CLI pipeline (shallow embedding).

The embedding models the pure core of the repository:
  - `src/types.ts` : the runtime value classifier `isZodSchema`;
  - `src/scanner.ts` : `normalizeSchemaName`, `isLikelySchemaName`,
    `extractSchemasFromFile` (its pure export-filtering logic) and
    `flattenSchemas`;
  - `src/index.ts` : `convertToJsonSchema`, `writeSeparateOutputs`,
    `writeCombinedOutput` and `getSchemaUrl`.

JavaScript runtime values are modelled by the inductive `Value`; strings are
modelled as Lean strings viewed as lists of characters (one `Char` per UTF-16
code unit, adequate for the code points the code manipulates, with
`Char.toUpper` standing for the single-character ASCII behaviour of
`String.prototype.toUpperCase`).  The external converter `z.toJSONSchema` is a
black box, passed as an explicit function argument returning either a JSON
object (an ordered field list) or an error message.  File-system writes are
modelled by returning the list of (file name, document) pairs the code would
write.
-/

namespace ZodToJsonSchema

/-! ## JavaScript runtime values (for the schema classifier) -/

/-- A JavaScript runtime value, as far as the classifier inspects it:
`null`, `undefined`, primitives, functions, and plain objects with ordered
own properties. -/
inductive Value where
  | vnull
  | vundefined
  | vbool (b : Bool)
  | vnum (n : Int)
  | vstr (s : String)
  | vfun
  | vobj (fields : List (String × Value))

/-- Result of the JavaScript `typeof` operator (note `typeof null` is
`"object"`). -/
def Value.typeofStr : Value → String
  | .vnull => "object"
  | .vundefined => "undefined"
  | .vbool _ => "boolean"
  | .vnum _ => "number"
  | .vstr _ => "string"
  | .vfun => "function"
  | .vobj _ => "object"

/-- JavaScript truthiness. -/
def Value.truthy : Value → Bool
  | .vnull => false
  | .vundefined => false
  | .vbool b => b
  | .vnum n => decide (n ≠ 0)
  | .vstr s => decide (s ≠ "")
  | .vfun => true
  | .vobj _ => true

/-- First binding of a key in an ordered field list (JavaScript objects have
unique keys, so the first binding is the binding). -/
def lookupField (k : String) : List (String × Value) → Option Value
  | [] => none
  | (k', v) :: rest => if k' = k then some v else lookupField k rest

/-- Property access `v[k]`; `undefined` when absent (the code only reads
properties of values it has checked to be objects). -/
def Value.getProp (v : Value) (k : String) : Value :=
  match v with
  | .vobj fields => (lookupField k fields).getD .vundefined
  | _ => .vundefined

/-- The JavaScript `k in v` operator, restricted to own properties. -/
def Value.hasProp (v : Value) (k : String) : Bool :=
  match v with
  | .vobj fields => (lookupField k fields).isSome
  | _ => false

/-- `isZodSchema` from `src/types.ts`: duck-typing check for the Zod 4
marker `_zod.def` and the Zod 3 marker `_def`. -/
def isZodSchema (value : Value) : Bool :=
  if !value.truthy || value.typeofStr != "object" then false
  else
    let zv := value.getProp "_zod"
    if value.hasProp "_zod" && zv.truthy && (zv.typeofStr == "object") && zv.hasProp "def" then
      true
    else
      let dv := value.getProp "_def"
      if value.hasProp "_def" && dv.truthy && (dv.typeofStr == "object") then true
      else false

/-! ## Strings as code-unit sequences -/

/-- JavaScript `s.endsWith(suf)`. -/
def strEndsWith (s suf : String) : Bool := List.isSuffixOf suf.toList s.toList

/-- JavaScript `s.startsWith(pre)`. -/
def strStartsWith (s p : String) : Bool := List.isPrefixOf p.toList s.toList

/-- JavaScript `s.slice(0, -n)`: drop the last `n` code units. -/
def strDropRight (s : String) (n : Nat) : String :=
  ⟨s.toList.take (s.toList.length - n)⟩

/-- JavaScript `s.slice(n)`: drop the first `n` code units. -/
def strDrop (s : String) (n : Nat) : String := ⟨s.toList.drop n⟩

/-- JavaScript `s[i]`: `none` models `undefined`. -/
def strCharAt (s : String) (i : Nat) : Option Char := s.toList.get? i

/-- JavaScript `s.length`. -/
def strLen (s : String) : Nat := s.toList.length

/-- `normalizeSchemaName` from `src/scanner.ts`: strip a trailing `Schema`
(else `Zod`) suffix, then drop a leading `z` when the next code unit equals
its own upper-case conversion (`normalized[1] === normalized[1].toUpperCase()`
in the source; short-circuiting makes the `none` arm unreachable). -/
def normalizeSchemaName (name : String) : String :=
  let normalized :=
    if strEndsWith name "Schema" then strDropRight name 6
    else if strEndsWith name "Zod" then strDropRight name 3
    else name
  if strStartsWith normalized "z" && decide (1 < strLen normalized) &&
      (match strCharAt normalized 1 with
       | some c => c.toUpper == c
       | none => false) then
    strDrop normalized 1
  else normalized

/-- `isLikelySchemaName` from `src/scanner.ts`: the regular expressions
`/Schema$/`, `/Zod$/`, `/^z[A-Z]/`, `/Validator$/`. -/
def isLikelySchemaName (name : String) : Bool :=
  strEndsWith name "Schema" || strEndsWith name "Zod" ||
  (match name.toList with
   | c0 :: c1 :: _ => c0 == 'z' && ('A' ≤ c1 && c1 ≤ 'Z')
   | _ => false) ||
  strEndsWith name "Validator"

/-! ## JSON documents -/

/-- A JSON value; objects keep their fields in insertion order, as
JavaScript object spreads and `JSON.stringify` do. -/
inductive Json where
  | null
  | bool (b : Bool)
  | num (n : Int)
  | str (s : String)
  | arr (items : List Json)
  | obj (fields : List (String × Json))

/-- The ordered field list of a top-level JSON Schema document. -/
abbrev Doc := List (String × Json)

/-- The JavaScript `k in doc` check on a document's own keys. -/
def hasKey (k : String) (d : Doc) : Bool := decide (k ∈ d.map Prod.fst)

/-- Effect of the destructuring `const \x7b $schema, ...rest \x7d = doc` for
key `k`: `rest` keeps every other field in order (JavaScript object keys are
unique, so removing every binding of `k` is removing the one binding). -/
def removeKey (k : String) (d : Doc) : Doc := d.filter (fun p => decide (p.1 ≠ k))

/-- Number of fields of `d` carrying key `k`. -/
def countKey (k : String) (d : Doc) : Nat := (d.filter (fun p => decide (p.1 = k))).length

/-- First binding of key `k` in a document. -/
def lookupKey (k : String) : Doc → Option Json
  | [] => none
  | (k', v) :: rest => if k' = k then some v else lookupKey k rest

/-! ## Scanner data model (`src/scanner.ts`) -/

/-- `SchemaExport` from `src/scanner.ts`: a display name and the exported
schema value. -/
structure SchemaExport where
  name : String
  schema : Value

/-- `SchemaFile` from `src/scanner.ts`: one source file's qualifying
exports. -/
structure SchemaFile where
  filePath : String
  schemas : List SchemaExport

/-- `JSONSchemaTarget` from `src/types.ts` (a two-variant string union). -/
inductive JSONSchemaTarget where
  | draft7
  | draft2020_12
deriving DecidableEq

/-- `getSchemaUrl` from `src/index.ts` (its `default` switch arm is
unreachable: the union has exactly the two variants). -/
def getSchemaUrl : JSONSchemaTarget → String
  | .draft7 => "http://json-schema.org/draft-07/schema#"
  | .draft2020_12 => "https://json-schema.org/draft/2020-12/schema"

/-- The external converter `z.toJSONSchema` (with the fixed sub-options the
code passes), a black box: an object document or a thrown error message. -/
abbrev ExtConvert := Value → JSONSchemaTarget → Except String Doc

/-- `convertToJsonSchema` from `src/index.ts`: delegate to the external
converter; on success prepend `title = name` when absent (`z.toJSONSchema`
returns an object, so the source's object guard on the result holds); on
failure re-throw with the schema's name in the message. -/
def convertToJsonSchema (ext : ExtConvert) (schema : Value) (name : String)
    (target : JSONSchemaTarget) : Except String Doc :=
  match ext schema target with
  | .ok jsonSchema =>
      if hasKey "title" jsonSchema then .ok jsonSchema
      else .ok (("title", Json.str name) :: jsonSchema)
  | .error e => .error ("Failed to convert schema \"" ++ name ++ "\": " ++ e)

/-! ## Output writers (`src/index.ts`)

File-system effects are modelled by returning what would be written:
`writeSeparateOutputs` returns the ordered list of (file name, document)
pairs — the file name is relative to the output directory, `name ++ ".json"`
standing for `path.join(outputDir, name + ".json")` — plus the final
success/error tallies; `writeCombinedOutput` returns the single combined
document (written to `schemas.json`) and the error tally. -/

/-- Result of a separate-mode run. -/
structure SeparateResult where
  files : List (String × Doc)
  successCount : Nat
  errorCount : Nat

/-- One iteration of the `writeSeparateOutputs` loop. -/
def writeSeparateStep (ext : ExtConvert) (target : JSONSchemaTarget)
    (acc : SeparateResult) (e : SchemaExport) : SeparateResult :=
  match convertToJsonSchema ext e.schema e.name target with
  | .ok jsonSchema =>
      let schemaUrl := getSchemaUrl target
      let finalSchema :=
        if hasKey "$schema" jsonSchema then jsonSchema
        else ("$schema", Json.str schemaUrl) :: jsonSchema
      { files := acc.files ++ [(e.name ++ ".json", finalSchema)],
        successCount := acc.successCount + 1,
        errorCount := acc.errorCount }
  | .error _ => { acc with errorCount := acc.errorCount + 1 }

/-- `writeSeparateOutputs` from `src/index.ts`. -/
def writeSeparateOutputs (ext : ExtConvert) (schemas : List SchemaExport)
    (target : JSONSchemaTarget) : SeparateResult :=
  schemas.foldl (writeSeparateStep ext target) ⟨[], 0, 0⟩

/-- JavaScript property assignment `o[k] = v` on a plain object: overwrite
in place when the key exists, append otherwise. -/
def objSet (o : Doc) (k : String) (v : Json) : Doc :=
  if k ∈ o.map Prod.fst then o.map (fun p => if p.1 = k then (k, v) else p)
  else o ++ [(k, v)]

/-- One iteration of the `writeCombinedOutput` loop: state is the `$defs`
object under construction and the error tally. -/
def writeCombinedStep (ext : ExtConvert) (target : JSONSchemaTarget)
    (st : Doc × Nat) (e : SchemaExport) : Doc × Nat :=
  match convertToJsonSchema ext e.schema e.name target with
  | .ok jsonSchema => (objSet st.1 e.name (Json.obj (removeKey "$schema" jsonSchema)), st.2)
  | .error _ => (st.1, st.2 + 1)

/-- `writeCombinedOutput` from `src/index.ts`: the combined document written
to `schemas.json`, and the error tally. -/
def writeCombinedOutput (ext : ExtConvert) (schemas : List SchemaExport)
    (target : JSONSchemaTarget) : Doc × Nat :=
  let st := schemas.foldl (writeCombinedStep ext target) ([], 0)
  ([("$schema", Json.str (getSchemaUrl target)), ("$defs", Json.obj st.1)], st.2)

/-! ## Scanner and aggregator (`src/scanner.ts`) -/

/-- The pure core of `extractSchemasFromFile`: given the loaded module's
export table (in iteration order), keep the qualifying exports.  The
dynamic-import step itself is outside the model. -/
def extractSchemasFromFile (moduleExports : List (String × Value)) (verbose : Bool) :
    List SchemaExport :=
  moduleExports.foldl
    (fun schemas p =>
      if p.1 = "default" then schemas
      else if isZodSchema p.2 then
        if strEndsWith p.1 "Schema" || strEndsWith p.1 "Zod" || isLikelySchemaName p.1 then
          schemas ++ [⟨normalizeSchemaName p.1, p.2⟩]
        else if verbose then schemas ++ [⟨p.1, p.2⟩]
        else schemas
      else schemas)
    []

/-- Node `path.basename` of `p` with extension `.ts` (POSIX, as the scanner
uses it on joined file paths, which carry no trailing separator): the
component after the last `/`, then the `.ts` suffix dropped unless it is the
whole component. -/
def basenameNoTs (p : String) : String :=
  let base := (p.splitOn "/").getLastD ""
  if base ≠ ".ts" ∧ strEndsWith base ".ts" then strDropRight base 3 else base

/-- One iteration of the `flattenSchemas` inner loop: state is the set of
emitted names (as a list) and the output so far. -/
def flattenStep (fileBase : String) (st : List String × List SchemaExport)
    (s : SchemaExport) : List String × List SchemaExport :=
  let name := if s.name ∈ st.1 then fileBase ++ "_" ++ s.name else s.name
  if name ∈ st.1 then st
  else (name :: st.1, st.2 ++ [⟨name, s.schema⟩])

/-- `flattenSchemas` from `src/scanner.ts`: files in input order, exports in
input order, collisions renamed to `basename_name` and dropped when the
renamed name is also taken. -/
def flattenSchemas (scanResults : List SchemaFile) : List SchemaExport :=
  (scanResults.foldl
    (fun st file => file.schemas.foldl (flattenStep (basenameNoTs file.filePath)) st)
    ([], [])).2

/-! ## Claim-side specification of the aggregator -/

/-- The aggregation algorithm as the specification states it, over
(file basename, exports) pairs: emit an export under its original name when
unseen; otherwise rename it to `basename_name` and emit only when the renamed
name is also unseen; otherwise drop it. -/
def flattenSpecGo (seen : List String) :
    List (String × List SchemaExport) → List SchemaExport
  | [] => []
  | (_, []) :: rest => flattenSpecGo seen rest
  | (base, s :: ss) :: rest =>
    if s.name ∈ seen then
      if base ++ "_" ++ s.name ∈ seen then flattenSpecGo seen ((base, ss) :: rest)
      else ⟨base ++ "_" ++ s.name, s.schema⟩ ::
        flattenSpecGo ((base ++ "_" ++ s.name) :: seen) ((base, ss) :: rest)
    else ⟨s.name, s.schema⟩ :: flattenSpecGo (s.name :: seen) ((base, ss) :: rest)

/-- The specification's aggregator over scan results. -/
def flattenSpec (scanResults : List SchemaFile) : List SchemaExport :=
  flattenSpecGo [] (scanResults.map fun f => (basenameNoTs f.filePath, f.schemas))

/-- The nested fold of `flattenSchemas`, from an arbitrary state, produces
exactly what the specification-side recursion appends to the pending output. -/
theorem foldPairs_eq_flattenSpecGo (seen : List String)
    (pairs : List (String × List SchemaExport)) :
    ∀ out : List SchemaExport,
      (pairs.foldl (fun st p => p.2.foldl (flattenStep p.1) st) (seen, out)).2
        = out ++ flattenSpecGo seen pairs := by
  induction seen, pairs using flattenSpecGo.induct with
  | case1 seen => intro out; simp [flattenSpecGo]
  | case2 seen base rest ih => intro out; simpa [flattenSpecGo] using ih out
  | case3 seen base s ss rest hmem hren ih =>
    intro out
    simp only [List.foldl_cons]
    have hstep : flattenStep base (seen, out) s = (seen, out) := by
      simp [flattenStep, hmem, hren]
    rw [hstep]
    have := ih out
    simp only [List.foldl_cons] at this
    rw [this]
    simp [flattenSpecGo, hmem, hren]
  | case4 seen base s ss rest hmem hren ih =>
    intro out
    simp only [List.foldl_cons]
    have hstep : flattenStep base (seen, out) s
        = ((base ++ "_" ++ s.name) :: seen, out ++ [⟨base ++ "_" ++ s.name, s.schema⟩]) := by
      simp [flattenStep, hmem, hren]
    rw [hstep]
    have := ih (out ++ [⟨base ++ "_" ++ s.name, s.schema⟩])
    simp only [List.foldl_cons] at this
    rw [this]
    simp [flattenSpecGo, hmem, hren]
  | case5 seen base s ss rest hmem ih =>
    intro out
    simp only [List.foldl_cons]
    have hstep : flattenStep base (seen, out) s
        = (s.name :: seen, out ++ [⟨s.name, s.schema⟩]) := by
      simp [flattenStep, hmem]
    rw [hstep]
    have := ih (out ++ [⟨s.name, s.schema⟩])
    simp only [List.foldl_cons] at this
    rw [this]
    simp [flattenSpecGo, hmem]

/-- One aggregation step preserves the invariant: output names are distinct
and all of them are recorded in the seen set. -/
theorem flattenStep_inv (base : String) (s : SchemaExport)
    (st : List String × List SchemaExport)
    (h1 : (st.2.map SchemaExport.name).Nodup) (h2 : ∀ x ∈ st.2, x.name ∈ st.1) :
    ((flattenStep base st s).2.map SchemaExport.name).Nodup
    ∧ ∀ x ∈ (flattenStep base st s).2, x.name ∈ (flattenStep base st s).1 := by
  unfold flattenStep
  by_cases hmem : (if s.name ∈ st.1 then base ++ "_" ++ s.name else s.name) ∈ st.1
  · simp only [if_pos hmem]
    exact ⟨h1, h2⟩
  · simp only [if_neg hmem]
    refine ⟨?_, ?_⟩
    · simp only [List.map_append, List.map_cons, List.map_nil, List.nodup_append]
      refine ⟨h1, List.nodup_singleton _, ?_⟩
      intro a ha
      simp only [List.mem_singleton]
      intro hEq
      rcases List.mem_map.mp ha with ⟨x, hx, rfl⟩
      exact hmem (hEq ▸ h2 x hx)
    · intro x hx
      rcases List.mem_append.mp hx with hx | hx
      · exact List.mem_cons_of_mem _ (h2 x hx)
      · simp only [List.mem_singleton] at hx
        subst hx
        exact List.mem_cons_self _ _

/-- The inner (per-file) fold preserves the aggregation invariant. -/
theorem flattenInner_inv (base : String) (l : List SchemaExport) :
    ∀ st : List String × List SchemaExport,
      (st.2.map SchemaExport.name).Nodup → (∀ x ∈ st.2, x.name ∈ st.1) →
      ((l.foldl (flattenStep base) st).2.map SchemaExport.name).Nodup
      ∧ ∀ x ∈ (l.foldl (flattenStep base) st).2,
          x.name ∈ (l.foldl (flattenStep base) st).1 := by
  induction l with
  | nil => intro st h1 h2; exact ⟨h1, h2⟩
  | cons s rest ih =>
    intro st h1 h2
    simp only [List.foldl_cons]
    have h := flattenStep_inv base s st h1 h2
    exact ih _ h.1 h.2

/-- The whole nested fold keeps output names distinct. -/
theorem foldPairs_nodup (pairs : List (String × List SchemaExport)) :
    ∀ st : List String × List SchemaExport,
      (st.2.map SchemaExport.name).Nodup → (∀ x ∈ st.2, x.name ∈ st.1) →
      ((pairs.foldl (fun st p => p.2.foldl (flattenStep p.1) st) st).2.map
          SchemaExport.name).Nodup := by
  induction pairs with
  | nil => intro st h1 _; simpa using h1
  | cons p rest ih =>
    intro st h1 h2
    simp only [List.foldl_cons]
    have h := flattenInner_inv p.1 p.2 st h1 h2
    exact ih _ h.1 h.2

/-- C1: `flattenSchemas` iterates files in input order and exports within
each file in input order, emits an export under its original name if that
name is not yet emitted, otherwise rewrites the name to
`basename_originalName` (file basename without the `.ts` extension) and
emits under the rewritten name only if it too is unseen, silently dropping
the export otherwise (this is exactly `flattenSpec`, the claim-side
recursion, which also shows the output preserves the encounter order of
first-emitted names); consequently the output names are pairwise distinct. -/
theorem flattenSchemas_c1 (scanResults : List SchemaFile) :
    flattenSchemas scanResults = flattenSpec scanResults
    ∧ ((flattenSchemas scanResults).map SchemaExport.name).Nodup := by
  have hpairs := foldPairs_eq_flattenSpecGo []
    (scanResults.map fun f => (basenameNoTs f.filePath, f.schemas)) []
  rw [List.foldl_map] at hpairs
  constructor
  · unfold flattenSchemas flattenSpec
    simpa using hpairs
  · have hnodup := foldPairs_nodup
      (scanResults.map fun f => (basenameNoTs f.filePath, f.schemas)) ([], [])
      (by simp) (by simp)
    rw [List.foldl_map] at hnodup
    unfold flattenSchemas
    simpa using hnodup

/-- C2: when the external converter returns a document for `s`, `convert`
returns that document with `title = n` inserted as the first key if the
document had no `title` key, and returns it unchanged otherwise; no other
key is added, removed or modified. -/
theorem convertToJsonSchema_c2 (ext : ExtConvert) (s : Value) (n : String)
    (t : JSONSchemaTarget) (d : Doc) (hok : ext s t = .ok d) :
    convertToJsonSchema ext s n t
      = .ok (if hasKey "title" d then d else ("title", Json.str n) :: d)
    ∧ (hasKey "title" d = true → convertToJsonSchema ext s n t = .ok d)
    ∧ (hasKey "title" d = false →
        convertToJsonSchema ext s n t = .ok (("title", Json.str n) :: d)
        ∧ lookupKey "title" (("title", Json.str n) :: d) = some (Json.str n))
    ∧ ∀ k : String, k ≠ "title" →
        lookupKey k (if hasKey "title" d then d else ("title", Json.str n) :: d)
          = lookupKey k d := by
  unfold convertToJsonSchema
  rw [hok]
  by_cases ht : hasKey "title" d = true
  · simp [ht]
  · have ht' : hasKey "title" d = false := by simpa using ht
    refine ⟨by simp [ht'], by simp [ht'], by simp [ht', lookupKey], ?_⟩
    intro k hk
    have hne : ¬("title" = k) := fun h => hk h.symm
    simp [ht', lookupKey, hne]

/-- Closed instance of C2: a titleless external result gets `title` first. -/
theorem convertToJsonSchema_c2_witness :
    convertToJsonSchema (fun _ _ => Except.ok [("type", Json.str "object")])
        (Value.vobj []) "User" JSONSchemaTarget.draft7
      = Except.ok [("title", Json.str "User"), ("type", Json.str "object")] := by
  have h := convertToJsonSchema_c2 (fun _ _ => Except.ok [("type", Json.str "object")])
    (Value.vobj []) "User" JSONSchemaTarget.draft7 [("type", Json.str "object")] rfl
  simpa using h.1

/-- A two-test early-return chain is one disjunction. -/
theorem if_chain_eq_true (c1 c2 : Bool) :
    (if c1 = true then true else if c2 = true then true else false) = true
      ↔ (c1 = true ∨ c2 = true) := by
  cases c1 <;> cases c2 <;> simp

/-- A value is truthy with `typeof` `"object"` exactly when it is a non-null
object. -/
theorem truthy_object_iff (z : Value) :
    (z.truthy = true ∧ z.typeofStr = "object") ↔ ∃ zfs, z = Value.vobj zfs := by
  cases z <;> simp [Value.truthy, Value.typeofStr]

/-- C3: `isZodSchema` returns true exactly for non-null objects carrying
either a `_zod` property that is a non-null object with an own `def`
property, or a `_def` property that is itself a non-null object; in
particular it rejects null, undefined, primitives, functions and plain
objects without either marker. -/
theorem isZodSchema_c3 :
    (∀ v : Value, isZodSchema v = true ↔
      ∃ fs, v = Value.vobj fs ∧
        ((∃ zfs, lookupField "_zod" fs = some (Value.vobj zfs)
            ∧ (lookupField "def" zfs).isSome = true)
         ∨ (∃ dfs, lookupField "_def" fs = some (Value.vobj dfs))))
    ∧ isZodSchema Value.vnull = false
    ∧ isZodSchema Value.vundefined = false
    ∧ isZodSchema (Value.vbool true) = false
    ∧ isZodSchema (Value.vnum 5) = false
    ∧ isZodSchema (Value.vstr "x") = false
    ∧ isZodSchema Value.vfun = false
    ∧ isZodSchema (Value.vobj []) = false
    ∧ isZodSchema (Value.vobj [("_zod", Value.vobj [("def", Value.vnull)])]) = true
    ∧ isZodSchema (Value.vobj [("_def", Value.vobj [])]) = true := by
  refine ⟨?_, by decide, by decide, by decide, by decide, by decide, by decide,
    by decide, by decide, by decide⟩
  intro v
  cases v with
  | vnull => simp [isZodSchema, Value.truthy, Value.typeofStr, Value.hasProp, Value.getProp]
  | vundefined => simp [isZodSchema, Value.truthy, Value.typeofStr, Value.hasProp, Value.getProp]
  | vbool b => simp [isZodSchema, Value.truthy, Value.typeofStr, Value.hasProp, Value.getProp]
  | vnum n => simp [isZodSchema, Value.truthy, Value.typeofStr, Value.hasProp, Value.getProp]
  | vstr s => simp [isZodSchema, Value.truthy, Value.typeofStr, Value.hasProp, Value.getProp]
  | vfun => simp [isZodSchema, Value.truthy, Value.typeofStr, Value.hasProp, Value.getProp]
  | vobj fs =>
    have hguard :
        (!(Value.vobj fs).truthy || ((Value.vobj fs).typeofStr != "object")) = false := by
      simp [Value.truthy, Value.typeofStr]
    simp only [isZodSchema, hguard, Bool.false_eq_true, if_false]
    rw [if_chain_eq_true]
    simp only [Bool.and_eq_true, beq_iff_eq]
    constructor
    · rintro (⟨⟨⟨hhas, htr⟩, hty⟩, hdf⟩ | ⟨⟨hhas, htr⟩, hty⟩)
      · simp only [Value.hasProp, Option.isSome_iff_exists] at hhas
        rcases hhas with ⟨z, hz⟩
        have hzget : (Value.vobj fs).getProp "_zod" = z := by
          simp [Value.getProp, hz]
        rw [hzget] at htr hty hdf
        rcases (truthy_object_iff z).mp ⟨htr, hty⟩ with ⟨zfs, rfl⟩
        simp only [Value.hasProp] at hdf
        exact ⟨fs, rfl, Or.inl ⟨zfs, hz, hdf⟩⟩
      · simp only [Value.hasProp, Option.isSome_iff_exists] at hhas
        rcases hhas with ⟨dv, hd⟩
        have hdget : (Value.vobj fs).getProp "_def" = dv := by
          simp [Value.getProp, hd]
        rw [hdget] at htr hty
        rcases (truthy_object_iff dv).mp ⟨htr, hty⟩ with ⟨dfs, rfl⟩
        exact ⟨fs, rfl, Or.inr ⟨dfs, hd⟩⟩
    · rintro ⟨fs', heq, hcase⟩
      have hfs : fs = fs' := by injection heq
      subst hfs
      rcases hcase with ⟨zfs, hz, hdf⟩ | ⟨dfs, hd⟩
      · left
        have hzget : (Value.vobj fs).getProp "_zod" = Value.vobj zfs := by
          simp [Value.getProp, hz]
        refine ⟨⟨⟨?_, ?_⟩, ?_⟩, ?_⟩
        · simp [Value.hasProp, hz]
        · rw [hzget]; rfl
        · rw [hzget]; rfl
        · rw [hzget]; simpa [Value.hasProp] using hdf
      · right
        have hdget : (Value.vobj fs).getProp "_def" = Value.vobj dfs := by
          simp [Value.getProp, hd]
        refine ⟨⟨?_, ?_⟩, ?_⟩
        · simp [Value.hasProp, hd]
        · rw [hdget]; rfl
        · rw [hdget]; rfl

/-! ## The Name Normalizer (C4, C5) -/

/-- The z-prefix test of `normalizeSchemaName`, structurally: first code
unit `z`, and a second code unit that equals its own upper-case
conversion. -/
def zDropApplies (s : String) : Bool :=
  match s.toList with
  | c0 :: c1 :: _ => c0 == 'z' && (c1.toUpper == c1)
  | _ => false

/-- The source's three-part z-prefix condition is the structural test. -/
theorem normalizeZCond_eq (s : String) :
    (strStartsWith s "z" && decide (1 < strLen s) &&
      (match strCharAt s 1 with
       | some c => c.toUpper == c
       | none => false)) = zDropApplies s := by
  unfold strStartsWith strLen strCharAt zDropApplies
  cases h : s.toList with
  | nil => simp [List.isPrefixOf]
  | cons c0 rest =>
    cases rest with
    | nil => simp [List.isPrefixOf]
    | cons c1 rest2 =>
      have hg : (c0 :: c1 :: rest2).get? 1 = some c1 := rfl
      have hp : List.isPrefixOf "z".toList (c0 :: c1 :: rest2) = ('z' == c0) := by
        show List.isPrefixOf ['z'] (c0 :: c1 :: rest2) = ('z' == c0)
        simp [List.isPrefixOf]
      have hl : decide (1 < (c0 :: c1 :: rest2).length) = true := by
        simp only [decide_eq_true_eq, List.length_cons]
        omega
      rw [hg, hp, hl]
      rw [Bool.eq_iff_iff]
      simp only [Bool.and_true, Bool.true_and, Bool.and_eq_true, beq_iff_eq]
      constructor
      · rintro ⟨h0, h1⟩; exact ⟨h0.symm, h1⟩
      · rintro ⟨h0, h1⟩; exact ⟨h0.symm, h1⟩

/-- The Name Normalizer as the amended claim describes it: strip one
trailing suffix (`Schema` with precedence over `Zod`, at most one), then
drop a leading `z` exactly when the code unit after it equals its own
upper-case conversion; otherwise leave the string unchanged. -/
def normalizeSpec (name : String) : String :=
  let base :=
    if strEndsWith name "Schema" then strDropRight name 6
    else if strEndsWith name "Zod" then strDropRight name 3
    else name
  match base.toList with
  | c0 :: c1 :: rest => if c0 = 'z' ∧ c1.toUpper = c1 then ⟨c1 :: rest⟩ else base
  | _ => base

/-- C4 (counterexample): the claim says the leading `z` is dropped only
when the next character is an uppercase letter, so it predicts that `z1` is
returned unchanged; the code drops the `z` (a digit equals its own
upper-case conversion) and returns `1`. -/
theorem normalizeSchemaName_c4_counterexample :
    normalizeSchemaName "z1" = "1" ∧ normalizeSchemaName "z1" ≠ "z1" := by
  constructor
  · decide
  · decide

/-- C4 (amended): `normalizeSchemaName` is total, strips a trailing
`Schema` suffix with precedence over a trailing `Zod` suffix (at most one
suffix is stripped), and then drops a leading lowercase `z` exactly when the
character immediately following it equals its own upper-case conversion
(uppercase letters, and also digits and symbols); strings matching no
pattern are returned unchanged.  This is `normalizeSpec`, the claim-side
formulation, and the four examples from the spec hold. -/
theorem normalizeSchemaName_c4 :
    (∀ name : String, normalizeSchemaName name = normalizeSpec name)
    ∧ normalizeSchemaName "UserSchema" = "User"
    ∧ normalizeSchemaName "ProductZod" = "Product"
    ∧ normalizeSchemaName "zAddress" = "Address"
    ∧ normalizeSchemaName "Config" = "Config" := by
  refine ⟨?_, by decide, by decide, by decide, by decide⟩
  intro name
  simp only [normalizeSchemaName, normalizeSpec]
  rw [normalizeZCond_eq]
  set base := if strEndsWith name "Schema" then strDropRight name 6
    else if strEndsWith name "Zod" then strDropRight name 3 else name with hbase
  simp only [zDropApplies, strDrop]
  cases h : base.toList with
  | nil => simp [h]
  | cons c0 rest =>
    cases rest with
    | nil => simp [h]
    | cons c1 rest2 =>
      by_cases h0 : c0 = 'z'
      · by_cases h1 : c1.toUpper = c1
        · simp [h0, h1, h]
        · simp [h0, h1, h]
      · simp [h0, h]

/-- A string on which no rewrite pattern fires is a fixed point of the
normalizer. -/
theorem normalizeSchemaName_fixpoint (y : String)
    (h1 : strEndsWith y "Schema" = false) (h2 : strEndsWith y "Zod" = false)
    (h3 : zDropApplies y = false) :
    normalizeSchemaName y = y := by
  simp only [normalizeSchemaName, h1, h2, Bool.false_eq_true, if_false]
  rw [normalizeZCond_eq, h3]
  simp

/-- C5 (counterexample): the normalizer is not idempotent: for the input
`SchemaSchema` the first pass yields `Schema`, and a second pass strips
again, yielding the empty string. -/
theorem normalizeSchemaName_c5_counterexample :
    normalizeSchemaName (normalizeSchemaName "SchemaSchema")
      ≠ normalizeSchemaName "SchemaSchema" := by decide

/-- C5 (amended): `normalize (normalize x) = normalize x` does not hold for
every string (see the counterexample); it holds whenever the first output
matches none of the rewrite patterns: no trailing `Schema`, no trailing
`Zod`, and no droppable leading `z`. -/
theorem normalizeSchemaName_c5 (x : String)
    (h1 : strEndsWith (normalizeSchemaName x) "Schema" = false)
    (h2 : strEndsWith (normalizeSchemaName x) "Zod" = false)
    (h3 : zDropApplies (normalizeSchemaName x) = false) :
    normalizeSchemaName (normalizeSchemaName x) = normalizeSchemaName x :=
  normalizeSchemaName_fixpoint (normalizeSchemaName x) h1 h2 h3

/-- Closed instance of C5 at `UserSchema` (whose output `User` matches no
pattern). -/
theorem normalizeSchemaName_c5_witness :
    normalizeSchemaName (normalizeSchemaName "UserSchema")
      = normalizeSchemaName "UserSchema" :=
  normalizeSchemaName_c5 "UserSchema" (by decide) (by decide) (by decide)

/-! ## Output-writer characterizations (C6, C7, C8, C10) -/

/-- The document separate mode writes for a successful conversion result:
the result itself, or the result with the target URL prepended when it has
no `$schema` key. -/
def sepFinal (target : JSONSchemaTarget) (d : Doc) : Doc :=
  if hasKey "$schema" d then d else ("$schema", Json.str (getSchemaUrl target)) :: d

/-- The separate-mode file a schema export contributes, if any. -/
def sepEntry (ext : ExtConvert) (target : JSONSchemaTarget) (e : SchemaExport) :
    Option (String × Doc) :=
  match convertToJsonSchema ext e.schema e.name target with
  | .ok d => some (e.name ++ ".json", sepFinal target d)
  | .error _ => none

/-- Whether a schema export converts successfully. -/
def convertOk (ext : ExtConvert) (target : JSONSchemaTarget) (e : SchemaExport) : Bool :=
  match convertToJsonSchema ext e.schema e.name target with
  | .ok _ => true
  | .error _ => false

/-- The combined-mode `$defs` binding a schema export contributes, if any. -/
def combEntry (ext : ExtConvert) (target : JSONSchemaTarget) (e : SchemaExport) :
    Option (String × Json) :=
  match convertToJsonSchema ext e.schema e.name target with
  | .ok d => some (e.name, Json.obj (removeKey "$schema" d))
  | .error _ => none

/-- Separate mode writes exactly the files of the successful conversions,
in input order. -/
theorem writeSeparate_fold_files (ext : ExtConvert) (t : JSONSchemaTarget)
    (l : List SchemaExport) :
    ∀ acc : SeparateResult,
      (l.foldl (writeSeparateStep ext t) acc).files
        = acc.files ++ l.filterMap (sepEntry ext t) := by
  induction l with
  | nil => intro acc; simp
  | cons e rest ih =>
    intro acc
    simp only [List.foldl_cons, List.filterMap_cons]
    cases hc : convertToJsonSchema ext e.schema e.name t with
    | ok d =>
      rw [ih]
      simp [writeSeparateStep, sepEntry, sepFinal, hc]
    | error msg =>
      rw [ih]
      simp [writeSeparateStep, sepEntry, hc]

/-- Separate mode counts one success per successful conversion. -/
theorem writeSeparate_fold_success (ext : ExtConvert) (t : JSONSchemaTarget)
    (l : List SchemaExport) :
    ∀ acc : SeparateResult,
      (l.foldl (writeSeparateStep ext t) acc).successCount
        = acc.successCount + l.countP (fun e => convertOk ext t e) := by
  induction l with
  | nil => intro acc; simp
  | cons e rest ih =>
    intro acc
    simp only [List.foldl_cons, List.countP_cons]
    cases hc : convertToJsonSchema ext e.schema e.name t with
    | ok d =>
      rw [ih]
      simp [writeSeparateStep, hc, convertOk] <;> omega
    | error msg =>
      rw [ih]
      simp [writeSeparateStep, hc, convertOk] <;> omega

/-- Separate mode counts one error per failed conversion. -/
theorem writeSeparate_fold_error (ext : ExtConvert) (t : JSONSchemaTarget)
    (l : List SchemaExport) :
    ∀ acc : SeparateResult,
      (l.foldl (writeSeparateStep ext t) acc).errorCount
        = acc.errorCount + l.countP (fun e => !convertOk ext t e) := by
  induction l with
  | nil => intro acc; simp
  | cons e rest ih =>
    intro acc
    simp only [List.foldl_cons, List.countP_cons]
    cases hc : convertToJsonSchema ext e.schema e.name t with
    | ok d =>
      rw [ih]
      simp [writeSeparateStep, hc, convertOk] <;> omega
    | error msg =>
      rw [ih]
      simp [writeSeparateStep, hc, convertOk] <;> omega

/-- The combined-mode error tally counts the failed conversions. -/
theorem writeCombined_fold_snd (ext : ExtConvert) (t : JSONSchemaTarget)
    (l : List SchemaExport) :
    ∀ (dfs : Doc) (n : Nat),
      (l.foldl (writeCombinedStep ext t) (dfs, n)).2
        = n + l.countP (fun e => !convertOk ext t e) := by
  induction l with
  | nil => intro dfs n; simp
  | cons e rest ih =>
    intro dfs n
    simp only [List.foldl_cons, List.countP_cons]
    cases hc : convertToJsonSchema ext e.schema e.name t with
    | ok d =>
      simp only [writeCombinedStep, hc]
      rw [ih]
      simp [convertOk, hc] <;> omega
    | error msg =>
      simp only [writeCombinedStep, hc]
      rw [ih]
      simp [convertOk, hc] <;> omega

/-- The `$defs` object under construction does not depend on the error
tally. -/
theorem writeCombined_fold_fst_indep (ext : ExtConvert) (t : JSONSchemaTarget)
    (l : List SchemaExport) :
    ∀ (dfs : Doc) (n m : Nat),
      (l.foldl (writeCombinedStep ext t) (dfs, n)).1
        = (l.foldl (writeCombinedStep ext t) (dfs, m)).1 := by
  induction l with
  | nil => intro dfs n m; rfl
  | cons e rest ih =>
    intro dfs n m
    simp only [List.foldl_cons]
    cases hc : convertToJsonSchema ext e.schema e.name t with
    | ok d => simp only [writeCombinedStep, hc]; exact ih _ n m
    | error msg => simp only [writeCombinedStep, hc]; exact ih _ (n + 1) (m + 1)

/-- When every conversion fails, the `$defs` object never grows. -/
theorem writeCombined_fold_allfail (ext : ExtConvert) (t : JSONSchemaTarget)
    (l : List SchemaExport) (h : ∀ e ∈ l, convertOk ext t e = false) :
    ∀ (dfs : Doc) (n : Nat),
      (l.foldl (writeCombinedStep ext t) (dfs, n)).1 = dfs := by
  induction l with
  | nil => intro dfs n; rfl
  | cons e rest ih =>
    intro dfs n
    simp only [List.foldl_cons]
    have he : convertOk ext t e = false := h e (List.mem_cons_self _ _)
    cases hc : convertToJsonSchema ext e.schema e.name t with
    | ok d => simp [convertOk, hc] at he
    | error msg =>
      simp only [writeCombinedStep, hc]
      exact ih (fun x hx => h x (List.mem_cons_of_mem _ hx)) dfs (n + 1)

/-- Setting an absent key appends it. -/
theorem objSet_of_not_mem (o : Doc) (k : String) (v : Json)
    (h : k ∉ o.map Prod.fst) : objSet o k v = o ++ [(k, v)] := by
  unfold objSet
  rw [if_neg h]

/-- With pairwise-distinct schema names, the `$defs` object is the ordered
list of bindings of the successful conversions. -/
theorem writeCombined_fold_defs (ext : ExtConvert) (t : JSONSchemaTarget)
    (l : List SchemaExport) :
    ∀ (dfs : Doc) (n : Nat),
      (l.map SchemaExport.name).Nodup →
      (∀ k ∈ dfs.map Prod.fst, k ∉ l.map SchemaExport.name) →
      (l.foldl (writeCombinedStep ext t) (dfs, n)).1
        = dfs ++ l.filterMap (combEntry ext t) := by
  induction l with
  | nil => intro dfs n _ _; simp
  | cons e rest ih =>
    intro dfs n hnodup hdisj
    simp only [List.foldl_cons, List.filterMap_cons]
    simp only [List.map_cons, List.nodup_cons] at hnodup
    cases hc : convertToJsonSchema ext e.schema e.name t with
    | ok d =>
      simp only [writeCombinedStep, hc]
      have hnot : e.name ∉ dfs.map Prod.fst := by
        intro hk
        exact hdisj e.name hk (by simp)
      rw [objSet_of_not_mem dfs e.name _ hnot]
      rw [ih (dfs ++ [(e.name, Json.obj (removeKey "$schema" d))]) n hnodup.2 ?_]
      · simp [combEntry, hc]
      · intro k hk
        simp only [List.map_append, List.mem_append, List.map_cons, List.map_nil,
          List.mem_singleton] at hk
        rcases hk with hk | hk
        · intro hmem
          exact hdisj k hk (by simp [hmem])
        · subst hk
          exact hnodup.1
    | error msg =>
      simp only [writeCombinedStep, hc]
      rw [ih dfs (n + 1) hnodup.2 ?_]
      · simp [combEntry, hc]
      · intro k hk hmem
        exact hdisj k hk (by simp [hmem])

/-- The keys of the successful bindings form a sublist of the schema
names. -/
theorem combEntry_keys_sublist (ext : ExtConvert) (t : JSONSchemaTarget)
    (l : List SchemaExport) :
    ((l.filterMap (combEntry ext t)).map Prod.fst).Sublist
      (l.map SchemaExport.name) := by
  induction l with
  | nil => simp
  | cons e rest ih =>
    simp only [List.filterMap_cons, List.map_cons]
    cases hc : convertToJsonSchema ext e.schema e.name t with
    | ok d =>
      simp only [combEntry, hc, List.map_cons]
      exact List.Sublist.cons₂ _ ih
    | error msg =>
      simp only [combEntry, hc]
      exact List.Sublist.cons _ ih

/-- First-binding lookup finds a binding when the keys are distinct. -/
theorem lookupKey_of_mem_nodup (k : String) (v : Json) :
    ∀ d : Doc, (k, v) ∈ d → (d.map Prod.fst).Nodup → lookupKey k d = some v := by
  intro d
  induction d with
  | nil => intro hmem; cases hmem
  | cons p rest ih =>
    intro hmem hnodup
    simp only [List.map_cons, List.nodup_cons] at hnodup
    rcases List.mem_cons.mp hmem with rfl | hmem
    · simp [lookupKey]
    · have hne : p.1 ≠ k := by
        intro hEq
        exact hnodup.1 (hEq ▸ List.mem_map.mpr ⟨(k, v), hmem, rfl⟩)
      simp only [lookupKey, if_neg hne]
      exact ih hmem hnodup.2

/-- Removing a key removes it. -/
theorem hasKey_removeKey (k : String) (d : Doc) :
    hasKey k (removeKey k d) = false := by
  simp only [hasKey, removeKey, decide_eq_false_iff_not, List.mem_map]
  rintro ⟨p, hp, hk⟩
  simp only [List.mem_filter, decide_eq_true_eq] at hp
  exact hp.2 hk

/-- Stripping `$schema` from the separate-mode document gives the stripped
conversion result. -/
theorem removeKey_sepFinal (t : JSONSchemaTarget) (d : Doc) :
    removeKey "$schema" (sepFinal t d) = removeKey "$schema" d := by
  unfold sepFinal
  by_cases h : hasKey "$schema" d = true
  · rw [if_pos h]
  · rw [if_neg h]
    simp [removeKey]

/-- C6: in combined mode, for a schema whose conversion succeeds (with
pairwise-distinct aggregate names, as `flattenSchemas` guarantees), the
entry stored under its name in `$defs` has no `$schema` key and equals the
separate-mode output document for the same schema with its `$schema` key
removed; the top-level combined document carries exactly one `$schema` key,
holding the target URL. -/
theorem writeCombined_c6 (ext : ExtConvert) (schemas : List SchemaExport)
    (target : JSONSchemaTarget) (e : SchemaExport) (d : Doc)
    (hnodup : (schemas.map SchemaExport.name).Nodup)
    (hmem : e ∈ schemas)
    (hok : convertToJsonSchema ext e.schema e.name target = .ok d) :
    ∃ (defsList : Doc) (errN : Nat),
      writeCombinedOutput ext schemas target
        = ([("$schema", Json.str (getSchemaUrl target)),
            ("$defs", Json.obj defsList)], errN)
      ∧ lookupKey e.name defsList = some (Json.obj (removeKey "$schema" d))
      ∧ hasKey "$schema" (removeKey "$schema" d) = false
      ∧ removeKey "$schema" d = removeKey "$schema" (sepFinal target d)
      ∧ (e.name ++ ".json", sepFinal target d)
          ∈ (writeSeparateOutputs ext schemas target).files
      ∧ countKey "$schema" (writeCombinedOutput ext schemas target).1 = 1 := by
  have hdefs := writeCombined_fold_defs ext target schemas [] 0 hnodup (by simp)
  refine ⟨schemas.filterMap (combEntry ext target),
    (schemas.foldl (writeCombinedStep ext target) ([], 0)).2, ?_, ?_, ?_, ?_, ?_, ?_⟩
  · simp only [writeCombinedOutput, hdefs, List.nil_append]
  · have hkmem : (e.name, Json.obj (removeKey "$schema" d))
        ∈ schemas.filterMap (combEntry ext target) :=
      List.mem_filterMap.mpr ⟨e, hmem, by simp [combEntry, hok]⟩
    have hkeys : ((schemas.filterMap (combEntry ext target)).map Prod.fst).Nodup :=
      (combEntry_keys_sublist ext target schemas).nodup hnodup
    exact lookupKey_of_mem_nodup e.name _ _ hkmem hkeys
  · exact hasKey_removeKey "$schema" d
  · exact (removeKey_sepFinal target d).symm
  · have hfiles := writeSeparate_fold_files ext target schemas ⟨[], 0, 0⟩
    simp only [writeSeparateOutputs, hfiles, List.nil_append]
    exact List.mem_filterMap.mpr ⟨e, hmem, by simp [sepEntry, hok]⟩
  · rfl

/-- Closed instance of C6: a one-schema run in combined mode. -/
theorem writeCombined_c6_witness :
    ∃ (defsList : Doc) (errN : Nat),
      writeCombinedOutput (fun _ _ => Except.ok [("type", Json.str "object")])
          [⟨"User", Value.vobj []⟩] JSONSchemaTarget.draft7
        = ([("$schema", Json.str (getSchemaUrl JSONSchemaTarget.draft7)),
            ("$defs", Json.obj defsList)], errN)
      ∧ lookupKey "User" defsList
          = some (Json.obj (removeKey "$schema"
              [("title", Json.str "User"), ("type", Json.str "object")]))
      ∧ hasKey "$schema" (removeKey "$schema"
          [("title", Json.str "User"), ("type", Json.str "object")]) = false
      ∧ removeKey "$schema" [("title", Json.str "User"), ("type", Json.str "object")]
          = removeKey "$schema" (sepFinal JSONSchemaTarget.draft7
              [("title", Json.str "User"), ("type", Json.str "object")])
      ∧ ("User" ++ ".json", sepFinal JSONSchemaTarget.draft7
            [("title", Json.str "User"), ("type", Json.str "object")])
          ∈ (writeSeparateOutputs (fun _ _ => Except.ok [("type", Json.str "object")])
              [⟨"User", Value.vobj []⟩] JSONSchemaTarget.draft7).files
      ∧ countKey "$schema" (writeCombinedOutput
            (fun _ _ => Except.ok [("type", Json.str "object")])
            [⟨"User", Value.vobj []⟩] JSONSchemaTarget.draft7).1 = 1 :=
  writeCombined_c6 (fun _ _ => Except.ok [("type", Json.str "object")])
    [⟨"User", Value.vobj []⟩] JSONSchemaTarget.draft7 ⟨"User", Value.vobj []⟩
    [("title", Json.str "User"), ("type", Json.str "object")]
    (by simp) (by simp) rfl

/-- C7: in separate mode each successfully converted schema is written to
`name.json`; if the converted result lacked a `$schema` key one computed
from the target is prepended as the first key (draft-7 and draft-2020-12
mapping to their URLs), and a result that already has a `$schema` key is
left unchanged. -/
theorem writeSeparate_c7 (ext : ExtConvert) (schemas : List SchemaExport)
    (target : JSONSchemaTarget) :
    (writeSeparateOutputs ext schemas target).files
      = schemas.filterMap (sepEntry ext target)
    ∧ (∀ e : SchemaExport, sepEntry ext target e
        = match convertToJsonSchema ext e.schema e.name target with
          | .ok d => some (e.name ++ ".json", sepFinal target d)
          | .error _ => none)
    ∧ (∀ d : Doc, sepFinal target d
        = if hasKey "$schema" d then d
          else ("$schema", Json.str (getSchemaUrl target)) :: d)
    ∧ getSchemaUrl JSONSchemaTarget.draft7 = "http://json-schema.org/draft-07/schema#"
    ∧ getSchemaUrl JSONSchemaTarget.draft2020_12
        = "https://json-schema.org/draft/2020-12/schema" :=
  ⟨by simpa [writeSeparateOutputs] using writeSeparate_fold_files ext target schemas ⟨[], 0, 0⟩,
   fun _ => rfl, fun _ => rfl, rfl, rfl⟩

/-- The combined writer, with its final let inlined. -/
theorem writeCombinedOutput_eq (ext : ExtConvert) (l : List SchemaExport)
    (t : JSONSchemaTarget) :
    writeCombinedOutput ext l t
      = ([("$schema", Json.str (getSchemaUrl t)),
          ("$defs", Json.obj (l.foldl (writeCombinedStep ext t) ([], 0)).1)],
         (l.foldl (writeCombinedStep ext t) ([], 0)).2) := rfl

/-- C8: a conversion failure is re-raised with a message identifying the
schema name; both writers catch it, count exactly one error for it, write
no output entry for that schema, and process every remaining schema exactly
as they would without it. -/
theorem convertError_c8 (ext : ExtConvert) (t : JSONSchemaTarget) (n : String)
    (s : Value) (e : String) (pre post : List SchemaExport)
    (herr : ext s t = .error e) :
    convertToJsonSchema ext s n t
      = .error ("Failed to convert schema \"" ++ n ++ "\": " ++ e)
    ∧ (writeSeparateOutputs ext (pre ++ ⟨n, s⟩ :: post) t).errorCount
        = (writeSeparateOutputs ext (pre ++ post) t).errorCount + 1
    ∧ (writeSeparateOutputs ext (pre ++ ⟨n, s⟩ :: post) t).files
        = (writeSeparateOutputs ext (pre ++ post) t).files
    ∧ (writeSeparateOutputs ext (pre ++ ⟨n, s⟩ :: post) t).successCount
        = (writeSeparateOutputs ext (pre ++ post) t).successCount
    ∧ (writeCombinedOutput ext (pre ++ ⟨n, s⟩ :: post) t).1
        = (writeCombinedOutput ext (pre ++ post) t).1
    ∧ (writeCombinedOutput ext (pre ++ ⟨n, s⟩ :: post) t).2
        = (writeCombinedOutput ext (pre ++ post) t).2 + 1 := by
  have hconv : convertToJsonSchema ext s n t
      = .error ("Failed to convert schema \"" ++ n ++ "\": " ++ e) := by
    unfold convertToJsonSchema
    rw [herr]
  have hokx : convertOk ext t ⟨n, s⟩ = false := by
    simp [convertOk, hconv]
  have hsep : ∀ l, writeSeparateOutputs ext l t
      = l.foldl (writeSeparateStep ext t) ⟨[], 0, 0⟩ := fun _ => rfl
  refine ⟨hconv, ?_, ?_, ?_, ?_, ?_⟩
  · rw [hsep, hsep, writeSeparate_fold_error, writeSeparate_fold_error]
    simp [List.countP_append, hokx] <;> omega
  · rw [hsep, hsep, writeSeparate_fold_files, writeSeparate_fold_files]
    simp [List.filterMap_append, sepEntry, hconv]
  · rw [hsep, hsep, writeSeparate_fold_success, writeSeparate_fold_success]
    simp [List.countP_append, hokx]
  · rw [writeCombinedOutput_eq, writeCombinedOutput_eq]
    rw [List.foldl_append, List.foldl_append, List.foldl_cons]
    cases hpre : pre.foldl (writeCombinedStep ext t) ([], 0) with
    | mk dfs0 n0 =>
      have hstep : writeCombinedStep ext t (dfs0, n0) ⟨n, s⟩ = (dfs0, n0 + 1) := by
        simp [writeCombinedStep, hconv]
      rw [hstep, writeCombined_fold_fst_indep ext t post dfs0 (n0 + 1) n0]
  · rw [writeCombinedOutput_eq, writeCombinedOutput_eq]
    rw [List.foldl_append, List.foldl_append, List.foldl_cons]
    cases hpre : pre.foldl (writeCombinedStep ext t) ([], 0) with
    | mk dfs0 n0 =>
      have hstep : writeCombinedStep ext t (dfs0, n0) ⟨n, s⟩ = (dfs0, n0 + 1) := by
        simp [writeCombinedStep, hconv]
      rw [hstep]
      dsimp only
      rw [writeCombined_fold_snd, writeCombined_fold_snd]
      omega

/-- Closed instance of C8: a single failing schema. -/
theorem convertError_c8_witness :
    convertToJsonSchema (fun _ _ => Except.error "boom") Value.vnull "User"
        JSONSchemaTarget.draft7
      = .error ("Failed to convert schema \"" ++ "User" ++ "\": " ++ "boom")
    ∧ (writeSeparateOutputs (fun _ _ => Except.error "boom")
        ([] ++ ⟨"User", Value.vnull⟩ :: []) JSONSchemaTarget.draft7).errorCount
        = (writeSeparateOutputs (fun _ _ => Except.error "boom")
            ([] ++ []) JSONSchemaTarget.draft7).errorCount + 1
    ∧ (writeSeparateOutputs (fun _ _ => Except.error "boom")
        ([] ++ ⟨"User", Value.vnull⟩ :: []) JSONSchemaTarget.draft7).files
        = (writeSeparateOutputs (fun _ _ => Except.error "boom")
            ([] ++ []) JSONSchemaTarget.draft7).files
    ∧ (writeSeparateOutputs (fun _ _ => Except.error "boom")
        ([] ++ ⟨"User", Value.vnull⟩ :: []) JSONSchemaTarget.draft7).successCount
        = (writeSeparateOutputs (fun _ _ => Except.error "boom")
            ([] ++ []) JSONSchemaTarget.draft7).successCount
    ∧ (writeCombinedOutput (fun _ _ => Except.error "boom")
        ([] ++ ⟨"User", Value.vnull⟩ :: []) JSONSchemaTarget.draft7).1
        = (writeCombinedOutput (fun _ _ => Except.error "boom")
            ([] ++ []) JSONSchemaTarget.draft7).1
    ∧ (writeCombinedOutput (fun _ _ => Except.error "boom")
        ([] ++ ⟨"User", Value.vnull⟩ :: []) JSONSchemaTarget.draft7).2
        = (writeCombinedOutput (fun _ _ => Except.error "boom")
            ([] ++ []) JSONSchemaTarget.draft7).2 + 1 :=
  convertError_c8 (fun _ _ => Except.error "boom") JSONSchemaTarget.draft7 "User"
    Value.vnull "boom" [] [] rfl

/-- C10: in combined mode the document is produced unconditionally: when
every conversion fails, the combined document still consists of the
target-derived `$schema` URL and an empty `$defs` map, with the error tally
equal to the number of schemas. -/
theorem writeCombined_c10 (ext : ExtConvert) (schemas : List SchemaExport)
    (t : JSONSchemaTarget) (hne : schemas ≠ [])
    (hfail : ∀ e ∈ schemas,
      ∃ msg, convertToJsonSchema ext e.schema e.name t = .error msg) :
    writeCombinedOutput ext schemas t
      = ([("$schema", Json.str (getSchemaUrl t)), ("$defs", Json.obj [])],
         schemas.length) := by
  have hok_false : ∀ e ∈ schemas, convertOk ext t e = false := by
    intro e he
    rcases hfail e he with ⟨msg, hmsg⟩
    simp [convertOk, hmsg]
  rw [writeCombinedOutput_eq]
  rw [writeCombined_fold_allfail ext t schemas hok_false [] 0]
  rw [writeCombined_fold_snd]
  have hcount : schemas.countP (fun e => !convertOk ext t e) = schemas.length := by
    rw [List.countP_eq_length]
    intro e he
    simp [hok_false e he]
  rw [hcount, Nat.zero_add]

/-- Closed instance of C10: one schema, whose conversion fails. -/
theorem writeCombined_c10_witness :
    writeCombinedOutput (fun _ _ => Except.error "boom")
        [⟨"User", Value.vnull⟩] JSONSchemaTarget.draft2020_12
      = ([("$schema", Json.str (getSchemaUrl JSONSchemaTarget.draft2020_12)),
          ("$defs", Json.obj [])], 1) :=
  writeCombined_c10 (fun _ _ => Except.error "boom") [⟨"User", Value.vnull⟩]
    JSONSchemaTarget.draft2020_12 (by simp)
    (fun e he => ⟨"Failed to convert schema \"" ++ e.name ++ "\": " ++ "boom", rfl⟩)

/-- C9: `normalizeSchemaName` maps the exact string `Schema` to the empty
string (the 6-character suffix strip consumes the whole identifier), so a
qualifying export named exactly `Schema` is emitted with an empty display
name, and separate mode writes it to `.json` inside the output
directory. -/
theorem schemaNamedSchema_c9 (v : Value) (verbose : Bool) (ext : ExtConvert)
    (t : JSONSchemaTarget) (d : Doc)
    (hv : isZodSchema v = true) (hok : ext v t = .ok d) :
    normalizeSchemaName "Schema" = ""
    ∧ extractSchemasFromFile [("Schema", v)] verbose = [⟨"", v⟩]
    ∧ (writeSeparateOutputs ext [⟨"", v⟩] t).files.map Prod.fst = [".json"] := by
  refine ⟨by decide, ?_, ?_⟩
  · simp only [extractSchemasFromFile, List.foldl_cons, List.foldl_nil]
    rw [if_neg (by decide : ¬("Schema" : String) = "default")]
    rw [if_pos hv]
    rw [if_pos (by decide : (strEndsWith "Schema" "Schema"
      || strEndsWith "Schema" "Zod" || isLikelySchemaName "Schema") = true)]
    rw [show normalizeSchemaName "Schema" = "" from by decide]
    rfl
  · have hconv : ∃ dd, convertToJsonSchema ext v "" t = .ok dd := by
      unfold convertToJsonSchema
      rw [hok]
      by_cases h : hasKey "title" d = true
      · exact ⟨d, by simp [h]⟩
      · exact ⟨("title", Json.str "") :: d, by simp [h]⟩
    rcases hconv with ⟨dd, hdd⟩
    simp [writeSeparateOutputs, writeSeparateStep, hdd]

/-- Closed instance of C9: a Zod-3-shaped value exported as `Schema`. -/
theorem schemaNamedSchema_c9_witness :
    normalizeSchemaName "Schema" = ""
    ∧ extractSchemasFromFile [("Schema", Value.vobj [("_def", Value.vobj [])])] false
        = [⟨"", Value.vobj [("_def", Value.vobj [])]⟩]
    ∧ (writeSeparateOutputs (fun _ _ => Except.ok [])
        [⟨"", Value.vobj [("_def", Value.vobj [])]⟩]
        JSONSchemaTarget.draft7).files.map Prod.fst = [".json"] :=
  schemaNamedSchema_c9 (Value.vobj [("_def", Value.vobj [])]) false
    (fun _ _ => Except.ok []) JSONSchemaTarget.draft7 [] (by decide) rfl

end ZodToJsonSchema
